import Mathlib

/-!
# Verification of the WInput single-line editor core (src/lib/widget/input.c)

Shallow embedding of the WInput widget state and of the operations that the
claims refer to.  The C byte buffer holds a null-terminated multi-byte string;
we model it as a list of characters, each character being the list of its
bytes (`List Nat`), so that `str_length` is `List.length`, `strlen` is the sum
of the per-character byte counts and `str_offset_to_pos` maps a character
offset to the byte offset of that character boundary.  External collaborators
from lib/strutil (character classifier, multi-byte validity check, display
width) are parameters of the operations, as §6 of the spec specifies them as
consumed interfaces.
-/

/-- History state: entry list (index 0 is the newest entry, mirroring that the
C code keeps `history.list` pointing at the newest GList link), the current
navigation position as an index (0 = newest) and the dirty flag. -/
structure History where
  entries : List (List Char)
  current : Nat
  changed : Bool
deriving DecidableEq, Repr

/-- The WInput widget state (fields of the C `WInput` used by the claims).
`buffer` is the character list (each character = its bytes), `point` and
`mark` are character offsets, `charbuf` is the multi-byte assembler scratch
(`charpoint` in C is its length; resetting `charpoint` to 0 is modelled as
clearing the list, since bytes past `charpoint` are dead). -/
structure WInput where
  buffer : List (List Nat)
  point : Nat
  mark : Nat
  highlight : Bool
  charbuf : List Nat
  first : Bool
  needPush : Bool
  term_first_shown : Int
  current_max_size : Nat
  hist : History
  histName : Option (List Char)
  strip_password : Bool
deriving DecidableEq, Repr

/-- Return value of widget callbacks (`cb_ret_t`). -/
inductive CbRet where
  | handled
  | notHandled
deriving DecidableEq, Repr

/-- `strlen (in->buffer)`: total byte count of the encoded buffer. -/
def bytesLen (buffer : List (List Nat)) : Nat :=
  (buffer.map List.length).sum

/-- `str_offset_to_pos (buffer, k)`: byte offset of character boundary `k`
(clamped to the end of the string when `k` exceeds the character count). -/
def str_offset_to_pos (buffer : List (List Nat)) (k : Nat) : Nat :=
  bytesLen (buffer.take k)

/-- `input_set_markers`. -/
def input_set_markers (s : WInput) (m1 : Nat) : WInput :=
  { s with mark := m1 }

/-- `input_mark_cmd`: `false` clears highlight and resets the mark to 0,
`true` turns highlighting on with the mark at point. -/
def input_mark_cmd (s : WInput) (mark : Bool) : WInput :=
  if mark = false then
    input_set_markers { s with highlight := false } 0
  else
    input_set_markers { s with highlight := true } s.point

/-- `input_eval_marks`: the active selection range
`(min (mark, point), max (mark, point))`, present iff `highlight`. -/
def input_eval_marks (s : WInput) : Option (Nat × Nat) :=
  if s.highlight then some (min s.mark s.point, max s.mark s.point) else none

/-- `delete_region`: clears the selection (via `input_mark_cmd FALSE`), puts
`point` at the start of the range and removes the character range
`[min, max)`; the C `memmove` over the byte positions returned by
`str_offset_to_pos` corresponds to `take first ++ drop last` on the character
list.  Also resets the assembler scratch and marks `need_push`. -/
def delete_region (s : WInput) (x_first x_last : Nat) : WInput :=
  let first := min x_first x_last
  let last := max x_first x_last
  let s := input_mark_cmd s false
  { s with point := first,
           buffer := s.buffer.take first ++ s.buffer.drop last,
           charbuf := [],
           needPush := true }

/-- `move_buffer_backward`: removes characters `[start, end_)`; a no-op when
`start >= str_length (buffer)` or `end_ > str_length (buffer) + 1`. -/
def move_buffer_backward (s : WInput) (start end_ : Nat) : WInput :=
  let str_len := s.buffer.length
  if start ≥ str_len ∨ end_ > str_len + 1 then s
  else { s with buffer := s.buffer.take start ++ s.buffer.drop end_ }

/-- Length of the leading run of combining characters of a list, for the
noncomb stepping functions. -/
def combRun (isComb : List Nat → Bool) : List (List Nat) → Nat
  | [] => 0
  | c :: rest => if isComb c then combRun isComb rest + 1 else 0

/-- Modelled from the spec: `str_cnext_noncomb_char` (lib/strutil, not under
src/) advances over one character plus any immediately following combining
marks ("a character plus any immediately following zero-width/combining
continuations are treated as a single deletable unit") and returns the number
of characters stepped over; 0 at the end of the string. -/
def str_cnext_noncomb_char (isComb : List Nat → Bool)
    (buffer : List (List Nat)) (pos : Nat) : Nat :=
  match buffer.drop pos with
  | [] => 0
  | _ :: rest => combRun isComb rest + 1

/-- Helper for `str_cprev_noncomb_char`: walking a reversed prefix, step back
one character, continuing while the character stepped onto is combining. -/
def cprevAux (isComb : List Nat → Bool) : List (List Nat) → Nat
  | [] => 0
  | c :: rest => if isComb c then 1 + cprevAux isComb rest else 1

/-- Modelled from the spec: `str_cprev_noncomb_char` (lib/strutil, not under
src/) steps backward over one character together with any combining marks in
front of the base character; 0 at the beginning of the string. -/
def str_cprev_noncomb_char (isComb : List Nat → Bool)
    (buffer : List (List Nat)) (pos : Nat) : Nat :=
  cprevAux isComb ((buffer.take pos).reverse)

/-- `delete_char`: removes the one logical character unit at `point`
(character plus following combining marks), then resets the assembler scratch
and marks `need_push`. -/
def delete_char (isComb : List Nat → Bool) (s : WInput) : WInput :=
  let end_ := s.point + str_cnext_noncomb_char isComb s.buffer s.point
  let s := move_buffer_backward s s.point end_
  { s with charbuf := [], needPush := true }

/-- `port_region_marked_for_delete`: truncates the buffer to the empty
string, puts point at 0 and clears the `first` flag and assembler scratch. -/
def port_region_marked_for_delete (s : WInput) : WInput :=
  { s with buffer := [], point := 0, first := false, charbuf := [] }

/-- `input_delete_selection`. -/
def input_delete_selection (s : WInput) : WInput :=
  match input_eval_marks s with
  | some (m1, m2) => delete_region s m1 m2
  | none => s

/-- `mc_winput_cmd_backward_char`: when `point > 0` steps `point` back by one
noncomb character unit; always resets the assembler scratch. -/
def mc_winput_cmd_backward_char (isComb : List Nat → Bool) (s : WInput) : WInput :=
  let s := if s.point > 0 then
             { s with point := s.point - str_cprev_noncomb_char isComb s.buffer s.point }
           else s
  { s with charbuf := [] }

/-- `mc_winput_cmd_delete`: on a still-untouched widget (`first`) clears the
whole buffer; with a selection deletes it; otherwise deletes the character at
point. -/
def mc_winput_cmd_delete (isComb : List Nat → Bool) (s : WInput) : WInput :=
  if s.first then port_region_marked_for_delete s
  else if s.highlight then input_delete_selection s
  else delete_char isComb s

/-- `MB_LEN_MAX` (limits.h): maximal byte length of one multi-byte character. -/
def MB_LEN_MAX : Nat := 16

/-- Outcome of `str_is_valid_char` (lib/strutil, consumed interface):
a negative result other than -2 is a broken sequence, -2 is an incomplete
sequence still awaiting bytes, a non-negative result is a complete
character. -/
inductive CharCheck where
  | broken
  | incomplete
  | valid
deriving DecidableEq, Repr

/-- `insert_char`: with a selection active, deletes it first; `-1` is
unhandled; a byte beyond `MB_LEN_MAX` pending bytes is swallowed; otherwise
the byte (truncated to `char`, hence `% 256`) joins the assembler scratch and
the validity check decides: broken resets the scratch, incomplete keeps it,
and a complete character grows the buffer when needed (by
`cols + charpoint` bytes, kept only when the allocation succeeds, which the
`alloc_ok` parameter decides) and, when the result fits, inserts the bytes at
point and advances point by one character. -/
def insert_char (checker : List Nat → CharCheck) (cols : Nat) (alloc_ok : Bool)
    (s : WInput) (c_code : Int) : WInput × CbRet :=
  let s := if s.highlight then
             match input_eval_marks s with
             | some (m1, m2) => delete_region s m1 m2
             | none => s
           else s
  if c_code = -1 then (s, .notHandled)
  else if s.charbuf.length ≥ MB_LEN_MAX then (s, .handled)
  else
    let s := { s with charbuf := s.charbuf ++ [c_code.toNat % 256] }
    match checker s.charbuf with
    | .broken => ({ s with charbuf := [] }, .handled)
    | .incomplete => (s, .handled)
    | .valid =>
      let s := { s with needPush := true }
      let s := if bytesLen s.buffer + 1 + s.charbuf.length ≥ s.current_max_size then
                 if alloc_ok then
                   { s with current_max_size :=
                              s.current_max_size + cols + s.charbuf.length }
                 else s
               else s
      let s := if bytesLen s.buffer + s.charbuf.length < s.current_max_size then
                 { s with buffer := s.buffer.take s.point ++ [s.charbuf]
                                      ++ s.buffer.drop s.point,
                          point := s.point + 1 }
               else s
      ({ s with charbuf := [] }, .handled)

/-- Modelled from the spec: a UTF-8 instance of the consumed multi-byte
validity check (`str_is_valid_char` of lib/strutil is not under src/), used
to evaluate the operations on concrete inputs: the lead byte fixes the
expected sequence length, continuation bytes are `0x80..0xBF`, a proper
prefix of a well-formed sequence is incomplete. -/
def utf8ExpectedLen (b : Nat) : Option Nat :=
  if b < 128 then some 1
  else if 194 ≤ b ∧ b ≤ 223 then some 2
  else if 224 ≤ b ∧ b ≤ 239 then some 3
  else if 240 ≤ b ∧ b ≤ 244 then some 4
  else none

/-- Modelled from the spec: UTF-8 validity check, see `utf8ExpectedLen`. -/
def utf8Check (bs : List Nat) : CharCheck :=
  match bs with
  | [] => .incomplete
  | b :: rest =>
    match utf8ExpectedLen b with
    | none => .broken
    | some n =>
      if rest.all (fun x => 128 ≤ x ∧ x ≤ 191) then
        if bs.length = n then .valid
        else if bs.length < n then .incomplete
        else .broken
      else .broken

/-- The process-wide kill ring (`static char *kill_buffer`): at most one
byte-string payload. -/
structure KillRing where
  kill_buffer : Option (List Nat)
deriving DecidableEq, Repr

/-- `input_destroy`: frees the instance-local completions, history list,
history name and buffer, and then also frees the process-wide kill ring,
leaving `kill_buffer = NULL`. -/
def input_destroy (_k : KillRing) (_destroyed : WInput) : KillRing :=
  { kill_buffer := none }

/-- External clipboard-bridge events raised by the copy/cut handlers. -/
inductive ClipEvent where
  | panel_save_current_file_to_clip_file
  | clipboard_file_to_ext_clip
  | clipboard_text_to_file (t : List Nat)
deriving DecidableEq, Repr

/-- `mc_winput_cmd_clipboard_copy`: when `max (mark, point) = min (mark,
point)` raises the file-level clipboard events and leaves the kill ring
alone; otherwise stores the bytes between the two character offsets in the
kill ring and mirrors them to the clipboard file. -/
def mc_winput_cmd_clipboard_copy (k : KillRing) (s : WInput) :
    KillRing × List ClipEvent :=
  let first := min s.mark s.point
  let last := max s.mark s.point
  if last = first then
    (k, [.panel_save_current_file_to_clip_file, .clipboard_file_to_ext_clip])
  else
    let firstB := str_offset_to_pos s.buffer first
    let lastB := str_offset_to_pos s.buffer last
    let kb := ((s.buffer.flatten).drop firstB).take (lastB - firstB)
    ({ kill_buffer := some kb },
     [.clipboard_text_to_file kb, .clipboard_file_to_ext_clip])

/-- `mc_winput_cmd_remove`: deletes the region between point and mark. -/
def mc_winput_cmd_remove (s : WInput) : WInput :=
  delete_region s s.point s.mark

/-- `mc_winput_cmd_clipboard_cut`: the copy handler followed by the remove
handler. -/
def mc_winput_cmd_clipboard_cut (k : KillRing) (s : WInput) :
    (KillRing × List ClipEvent) × WInput :=
  let copied := mc_winput_cmd_clipboard_copy k s
  (copied, mc_winput_cmd_remove s)

/-- `mc_winput_cmd_yank`: when the kill ring holds a payload, resets the
assembler scratch and feeds every payload byte through `insert_char`;
otherwise does nothing. -/
def mc_winput_cmd_yank (checker : List Nat → CharCheck) (cols : Nat)
    (alloc_ok : Bool) (k : KillRing) (s : WInput) : WInput :=
  match k.kill_buffer with
  | none => s
  | some bytes =>
    let s := { s with charbuf := [] }
    let s := bytes.foldl
               (fun st b => (insert_char checker cols alloc_ok st (Int.ofNat b)).1) s
    { s with charbuf := [] }

/-- `strchr` from position `k`: index of the first occurrence of `c` at an
index `≥ k`, if any. -/
def strchrFrom (url : List Char) (c : Char) (k : Nat) : Option Nat :=
  match (url.drop k).findIdx? (fun x => x = c) with
  | some j => some (k + j)
  | none => none

/-- `strchr`: index of the first occurrence of `c`. -/
def strchr (url : List Char) (c : Char) : Option Nat :=
  strchrFrom url c 0

/-- `strrchr`: index of the last occurrence of `c`. -/
def strrchr (url : List Char) (c : Char) : Option Nat :=
  match url.reverse.findIdx? (fun x => x = c) with
  | some j => some (url.length - 1 - j)
  | none => none

/-- Helper for `strstr`: first index at which `pat` occurs in the remaining
text, the index of the head of the remaining text being `i`. -/
def strstrAux (pat : List Char) : List Char → Nat → Option Nat
  | [], i => if pat.isEmpty then some i else none
  | x :: rest, i =>
    if pat.isPrefixOf (x :: rest) then some i else strstrAux pat rest (i + 1)

/-- `strstr`: index of the first occurrence of the pattern. -/
def strstrIdx (url pat : List Char) : Option Nat :=
  strstrAux pat url 0

/-- Modelled from the spec: `VFS_PATH_URL_DELIMITER` (lib/vfs, not under
src/) is the VFS-prefix delimiter the spec refers to, the string `://`. -/
def VFS_PATH_URL_DELIMITER : List Char := [':', '/', '/']

/-- `input_history_strip_password`: finds the last `@`; the candidate colon is
the first colon of the string (the first colon after the VFS delimiter when
one occurs); a colon after the `@` delimits host and port and is discarded;
otherwise the text between the colon and the `@` is dropped. -/
def input_history_strip_password (url : List Char) : List Char :=
  match strrchr url '@' with
  | none => url
  | some at_ =>
    let colon :=
      match strstrIdx url VFS_PATH_URL_DELIMITER with
      | some d => strchrFrom url ':' (d + VFS_PATH_URL_DELIMITER.length)
      | none => strchr url ':'
    match colon with
    | none => url
    | some c => if c > at_ then url else url.take c ++ url.drop at_

/-- `g_ascii_isspace`. -/
def g_ascii_isspace (c : Char) : Bool :=
  c = ' ' || c = '\t' || c = '\n' || c = '\x0d' ||
    c = Char.ofNat 11 || c = Char.ofNat 12

/-- `g_strstrip`: removes leading and trailing ASCII whitespace. -/
def g_strstrip (t : List Char) : List Char :=
  ((t.dropWhile g_ascii_isspace).reverse.dropWhile g_ascii_isspace).reverse

/-- The text `push_history` actually stores: the original text (the
whitespace-stripped copy serves only the emptiness check; an all-whitespace
text is stored as the empty string), passed through the password-stripping
rule when the text is non-empty, a history name is set and the
`strip_password` policy is enabled. -/
def push_normalize (s : WInput) (text : List Char) : List Char :=
  let empty := (g_strstrip text).isEmpty
  let t := if empty then [] else text
  if !empty && s.histName.isSome && s.strip_password then
    input_history_strip_password t
  else t

/-- Modelled from the spec: `list_append_unique` (lib/util.c, not under src/)
appends the text as the new newest entry and removes older duplicates (the
history is an "append-only, de-duplicating sequence"); the C function returns
the link of the new newest entry, which index 0 denotes here. -/
def list_append_unique (entries : List (List Char)) (t : List Char) :
    List (List Char) :=
  t :: entries.filter (fun e => e ≠ t)

/-- `push_history`: normalizes the text (see `push_normalize`); appends it as
the new newest entry, moves `current` to it and marks the history dirty,
unless the text equals the newest entry and the history is not dirty; always
clears `need_push`.  (The C `text == NULL` early return has no counterpart:
texts are total values here.) -/
def push_history (s : WInput) (text : List Char) : WInput :=
  let t := push_normalize s text
  let s :=
    if s.hist.entries = [] ∨ s.hist.entries.head? ≠ some t ∨ s.hist.changed = true then
      { s with hist := { entries := list_append_unique s.hist.entries t,
                         current := 0,
                         changed := true } }
    else s
  { s with needPush := false }

/-- `str_term_width2 (buffer, point)`: display width of the first `point`
characters, the consumed per-character width measure `cw` supplied by
lib/strutil. -/
def str_term_width2 (cw : List Nat → Nat) (buffer : List (List Nat))
    (point : Nat) : Nat :=
  ((buffer.take point).map cw).sum

/-- `HISTORY_BUTTON_WIDTH` (LARGE_HISTORY_BUTTON is defined). -/
def HISTORY_BUTTON_WIDTH : Nat := 3

/-- The "make the point visible" step of `input_update`: when the cursor
display column `pw` leaves the window `[first, first + cols - has_history)`,
the origin moves to `pw - cols / 3`, clamped at 0. -/
def term_first_recompute (cols has_history : Nat) (pw first : Int) : Int :=
  if pw < first ∨ pw ≥ first + ((cols : Int) - (has_history : Int)) then
    let f : Int := pw - ((cols / 3 : Nat) : Int)
    if f < 0 then 0 else f
  else first

/-- `input_update`, the state-changing part of the drawing path (an update
with `disable_update` set or without an active owning dialog returns before
reaching this code and is no redraw): clamps the mark to the character count,
recomputes the viewport origin (`term_first_recompute` on the cursor display
column) and finally clears `first` when asked to.  `showHist` tells whether
the history button occupies `HISTORY_BUTTON_WIDTH` columns
(`should_show_history_button`, which requires
`cols > HISTORY_BUTTON_WIDTH * 2 + 1`). -/
def input_update (cw : List Nat → Nat) (cols : Nat) (showHist : Bool)
    (s : WInput) (clear_first : Bool) : WInput :=
  let has_history : Nat := if showHist then HISTORY_BUTTON_WIDTH else 0
  let buf_len := s.buffer.length
  let s := { s with mark := min s.mark buf_len }
  let pw : Int := (str_term_width2 cw s.buffer s.point : Nat)
  let s := { s with term_first_shown :=
               term_first_recompute cols has_history pw s.term_first_shown }
  if clear_first then { s with first := false } else s

/-! ## Helper lemmas and concrete states used to evaluate the model -/

theorem bytesLen_append (a b : List (List Nat)) :
    bytesLen (a ++ b) = bytesLen a + bytesLen b := by
  simp [bytesLen]

theorem bytesLen_take_add_drop (l : List (List Nat)) (n : Nat) :
    bytesLen (l.take n) + bytesLen (l.drop n) = bytesLen l := by
  rw [← bytesLen_append, List.take_append_drop]

theorem bytesLen_take_le (l : List (List Nat)) (n : Nat) :
    bytesLen (l.take n) ≤ bytesLen l := by
  have h := bytesLen_take_add_drop l n
  omega

theorem bytesLen_take_drop_le (l : List (List Nat)) (a b : Nat) (hab : a ≤ b) :
    bytesLen (l.take a ++ l.drop b) ≤ bytesLen l := by
  rw [bytesLen_append]
  have h1 : l.take a = (l.take b).take a := by
    rw [List.take_take, Nat.min_eq_left hab]
  have h2 : bytesLen ((l.take b).take a) ≤ bytesLen (l.take b) :=
    bytesLen_take_le _ _
  have h3 := bytesLen_take_add_drop l b
  rw [h1]
  omega

/-- A default widget state for concrete evaluations. -/
def inp0 : WInput :=
  { buffer := [], point := 0, mark := 0, highlight := false, charbuf := [],
    first := false, needPush := false, term_first_shown := 0,
    current_max_size := 10, hist := ⟨[], 0, false⟩, histName := none,
    strip_password := false }

/-- A character classifier with no combining characters, for concrete runs. -/
def noComb : List Nat → Bool := fun _ => false

/-- A display-width measure giving every character width one. -/
def unitWidth : List Nat → Nat := fun _ => 1

/-! ## C4: delete_region -/

/-- C4: for valid character offsets `a` and `b`, `delete_region a b` removes
exactly the half-open range `[min (a, b), max (a, b))`, clears the selection
(highlight false, mark 0) and puts point at the region start; and for a state
with an active selection, `input_eval_marks` is
`(min (mark, point), max (mark, point))`. -/
theorem delete_region_removes_range :
    (∀ (s : WInput) (a b : Nat), a ≤ s.buffer.length → b ≤ s.buffer.length →
      delete_region s a b =
        { s with buffer := s.buffer.take (min a b) ++ s.buffer.drop (max a b),
                 point := min a b, highlight := false, mark := 0,
                 charbuf := [], needPush := true }) ∧
    (∀ s : WInput, s.highlight = true →
      input_eval_marks s = some (min s.mark s.point, max s.mark s.point)) := by
  constructor
  · intro s a b _ _
    rfl
  · intro s h
    simp [input_eval_marks, h]

/-- Scenario D state: buffer "abcdef", mark 2, point 5, selection active. -/
def sScenD : WInput :=
  { inp0 with buffer := [[97], [98], [99], [100], [101], [102]],
              point := 5, mark := 2, highlight := true }

/-- Witness for C4 (Scenario D): `active_range` is (2,5) and deleting that
region yields "abf" with point 2. -/
theorem delete_region_removes_range_witness :
    input_eval_marks sScenD = some (2, 5) ∧
    delete_region sScenD 2 5 =
      { sScenD with buffer := [[97], [98], [102]], point := 2,
                    highlight := false, mark := 0, charbuf := [],
                    needPush := true } := by
  constructor
  · exact (delete_region_removes_range.2 sScenD rfl).trans (by decide)
  · exact (delete_region_removes_range.1 sScenD 2 5 (by decide) (by decide)).trans
      (by decide)

/-! ## C10: delete-forward on an untouched widget -/

/-- C10: when the `first` flag is still set, the delete-forward command
clears the whole buffer and puts point at 0 (and clears `first` and the
assembler scratch), not merely the character at point. -/
theorem delete_cmd_on_untouched (isComb : List Nat → Bool) (s : WInput)
    (h : s.first = true) :
    mc_winput_cmd_delete isComb s =
      { s with buffer := [], point := 0, first := false, charbuf := [] } := by
  simp [mc_winput_cmd_delete, h, port_region_marked_for_delete]

/-- An untouched widget holding "abc" with point 1. -/
def sUntouched : WInput :=
  { inp0 with buffer := [[97], [98], [99]], point := 1, first := true }

/-- Witness for C10: on the untouched "abc" state the delete command empties
the buffer instead of deleting only the character at point. -/
theorem delete_cmd_on_untouched_witness :
    mc_winput_cmd_delete noComb sUntouched =
      { sUntouched with buffer := [], point := 0, first := false,
                        charbuf := [] } :=
  delete_cmd_on_untouched noComb sUntouched rfl

/-! ## C3: the kill ring and instance destruction -/

/-- The kill ring holding "xyz". -/
def killXYZ : KillRing := ⟨some [120, 121, 122]⟩

/-- Another editor instance holding "ab" with point 1 (Scenario E state). -/
def sAB : WInput := { inp0 with buffer := [[97], [98]], point := 1 }

/-- Counterexample to C3: destroying a single editor instance frees the
process-wide kill ring, so a yank in another instance afterwards inserts
nothing, while before the destruction the same yank would have inserted
"xyz". -/
theorem kill_ring_destroy_cex :
    (input_destroy killXYZ inp0).kill_buffer = none ∧
    mc_winput_cmd_yank utf8Check 10 true (input_destroy killXYZ inp0) sAB = sAB ∧
    (mc_winput_cmd_yank utf8Check 10 true killXYZ sAB).buffer =
      [[97], [120], [121], [122], [98]] ∧
    sAB.buffer ≠ [[97], [120], [121], [122], [98]] := by
  decide

/-- C3 (amended): `input_destroy` of any one editor instance frees the
process-wide kill ring: afterwards the kill ring is empty and a yank in any
other instance is a no-op. -/
theorem kill_ring_freed_on_destroy (k : KillRing) (destroyed : WInput)
    (checker : List Nat → CharCheck) (cols : Nat) (alloc_ok : Bool)
    (s : WInput) :
    (input_destroy k destroyed).kill_buffer = none ∧
    mc_winput_cmd_yank checker cols alloc_ok (input_destroy k destroyed) s = s :=
  ⟨rfl, rfl⟩

/-! ## C2: clipboard copy with no selection -/

/-- A state with highlight off, mark 0 and point 2 on "ab": no active
selection in the sense of `input_eval_marks`. -/
def sCopyNoSel : WInput :=
  { inp0 with buffer := [[97], [98]], point := 2, mark := 0,
              highlight := false }

/-- Counterexample to C2: with highlight false (no active selection) but
`mark ≠ point`, the copy handler does place the span between mark and point
into the kill ring: on "ab" with mark 0 and point 2 it stores "ab". -/
theorem clipboard_copy_no_selection_cex :
    sCopyNoSel.highlight = false ∧
    input_eval_marks sCopyNoSel = none ∧
    (mc_winput_cmd_clipboard_copy ⟨none⟩ sCopyNoSel).1.kill_buffer =
      some [97, 98] := by
  decide

/-- C2 (amended): the copy handler (also the copy phase of cut) tests
`mark = point`, not the highlight flag: when they coincide it leaves the kill
ring unchanged and raises the file-level clipboard events, and when they
differ it stores the bytes of `[min (mark, point), max (mark, point))` in the
kill ring, highlight notwithstanding. -/
theorem clipboard_copy_falls_back_iff_mark_eq_point (k : KillRing) (s : WInput) :
    (s.mark = s.point →
      mc_winput_cmd_clipboard_copy k s =
        (k, [ClipEvent.panel_save_current_file_to_clip_file,
             ClipEvent.clipboard_file_to_ext_clip])) ∧
    (s.mark ≠ s.point →
      (mc_winput_cmd_clipboard_copy k s).1.kill_buffer =
        some (((s.buffer.flatten).drop
                 (str_offset_to_pos s.buffer (min s.mark s.point))).take
               (str_offset_to_pos s.buffer (max s.mark s.point) -
                 str_offset_to_pos s.buffer (min s.mark s.point)))) ∧
    (mc_winput_cmd_clipboard_cut k s).1 = mc_winput_cmd_clipboard_copy k s := by
  refine ⟨?_, ?_, rfl⟩
  · intro h
    simp [mc_winput_cmd_clipboard_copy, h]
  · intro h
    have hne : ¬ (max s.mark s.point = min s.mark s.point) := by omega
    simp [mc_winput_cmd_clipboard_copy, hne]

/-- Witness for C2 (amended): with mark = point the kill ring is untouched
and the file-level clipboard events are raised; on "ab" with mark 0 and
point 2 the bytes "ab" are stored. -/
theorem clipboard_copy_falls_back_iff_mark_eq_point_witness :
    mc_winput_cmd_clipboard_copy killXYZ inp0 =
      (killXYZ, [ClipEvent.panel_save_current_file_to_clip_file,
                 ClipEvent.clipboard_file_to_ext_clip]) ∧
    (mc_winput_cmd_clipboard_copy killXYZ sCopyNoSel).1.kill_buffer =
      some [97, 98] := by
  constructor
  · exact (clipboard_copy_falls_back_iff_mark_eq_point killXYZ inp0).1 rfl
  · exact ((clipboard_copy_falls_back_iff_mark_eq_point killXYZ sCopyNoSel).2.1
      (by decide)).trans (by decide)

/-! ## C1: history password stripping -/

/-- A state with a history name set and the strip-password policy enabled. -/
def sStrip : WInput :=
  { inp0 with histName := some ['h'], strip_password := true }

/-- Counterexample to C1: pushing "a:b:c@h" stores "a@h" — the code splits at
the FIRST colon (strchr), not at the colon nearest before the last `@`
(index 3), which would give "a:b@h". -/
theorem strip_password_first_colon_cex :
    (push_history sStrip ['a', ':', 'b', ':', 'c', '@', 'h']).hist.entries.head?
      = some ['a', '@', 'h'] ∧
    strrchr ['a', ':', 'b', ':', 'c', '@', 'h'] '@' = some 5 ∧
    ['a', ':', 'b', ':', 'c', '@', 'h'].take 3 ++
        ['a', ':', 'b', ':', 'c', '@', 'h'].drop 5 = ['a', ':', 'b', '@', 'h'] ∧
    (['a', '@', 'h'] : List Char) ≠ ['a', ':', 'b', '@', 'h'] := by
  decide

/-- C1 (amended): when the strip-password policy is enabled, a history name
is set and the trimmed text is non-empty, `push_history` stores
`input_history_strip_password text` (shown here on a fresh history); the
stripping rule splits at the last `@` and treats the FIRST colon of the
string (the first colon after the `://` delimiter when one is present) as the
password separator, dropping everything between that colon and the `@`;
a string without `@`, or whose first colon lies after the last `@`, is kept
unchanged. -/
theorem strip_password_stored_form :
    (∀ (s : WInput) (text : List Char),
      s.histName.isSome = true → s.strip_password = true →
      (g_strstrip text).isEmpty = false → s.hist.entries = [] →
      (push_history s text).hist.entries.head? =
        some (input_history_strip_password text)) ∧
    (∀ url : List Char, strrchr url '@' = none →
      input_history_strip_password url = url) ∧
    (∀ (url : List Char) (a c : Nat),
      strstrIdx url VFS_PATH_URL_DELIMITER = none →
      strrchr url '@' = some a → strchr url ':' = some c → c < a →
      input_history_strip_password url = url.take c ++ url.drop a) ∧
    (∀ (url : List Char) (a c : Nat),
      strstrIdx url VFS_PATH_URL_DELIMITER = none →
      strrchr url '@' = some a → strchr url ':' = some c → a < c →
      input_history_strip_password url = url) := by
  refine ⟨?_, ?_, ?_, ?_⟩
  · intro s text hname hstrip hempty hentries
    simp [push_history, push_normalize, hname, hstrip, hempty, hentries,
          list_append_unique]
  · intro url h
    simp [input_history_strip_password, h]
  · intro url a c hvfs hat hcolon hlt
    simp [input_history_strip_password, hat, hvfs, hcolon]
    omega
  · intro url a c hvfs hat hcolon hlt
    simp [input_history_strip_password, hat, hvfs, hcolon]
    omega

/-- The Scenario C input "admin:secret@host/path". -/
def adminUrl : List Char :=
  ['a', 'd', 'm', 'i', 'n', ':', 's', 'e', 'c', 'r', 'e', 't', '@',
   'h', 'o', 's', 't', '/', 'p', 'a', 't', 'h']

/-- Witness for C1 (amended), Scenario C: pushing "admin:secret@host/path"
with stripping enabled stores "admin@host/path". -/
theorem strip_password_stored_form_witness :
    (push_history sStrip adminUrl).hist.entries.head? =
      some ['a', 'd', 'm', 'i', 'n', '@', 'h', 'o', 's', 't', '/',
            'p', 'a', 't', 'h'] ∧
    input_history_strip_password adminUrl =
      adminUrl.take 5 ++ adminUrl.drop 12 := by
  constructor
  · exact (strip_password_stored_form.1 sStrip adminUrl rfl rfl (by decide)
      rfl).trans (by decide)
  · exact strip_password_stored_form.2.2.1 adminUrl 12 5 (by decide) (by decide)
      (by decide) (by decide)

/-! ## C7: boundary behavior of backward-char and delete-char -/

/-- A state at point 0 with a pending assembler byte. -/
def sPending : WInput :=
  { inp0 with buffer := [[97]], point := 0, charbuf := [195] }

/-- A state with point at the end of "a" and `need_push` clear. -/
def sAtEnd : WInput :=
  { inp0 with buffer := [[97]], point := 1, needPush := false }

/-- Counterexample to C7: the two boundary commands do not leave the state
unchanged: backward-char at point 0 still resets the assembler scratch, and
delete-char at point = character length still resets the scratch and raises
the need-push flag. -/
theorem boundary_commands_not_noop_cex :
    sPending.point = 0 ∧
    mc_winput_cmd_backward_char noComb sPending ≠ sPending ∧
    sAtEnd.point = sAtEnd.buffer.length ∧
    delete_char noComb sAtEnd ≠ sAtEnd := by
  decide

/-- C7 (amended): at point 0, backward-char leaves buffer, point, mark and
highlight unchanged, resetting only the assembler scratch; at
point = character length, delete-char leaves buffer and point (and mark and
highlight) unchanged, resetting the assembler scratch and setting
`need_push`. -/
theorem boundary_commands_preserve_text (isComb : List Nat → Bool) (s : WInput) :
    (s.point = 0 →
      mc_winput_cmd_backward_char isComb s = { s with charbuf := [] }) ∧
    (s.point = s.buffer.length →
      delete_char isComb s = { s with charbuf := [], needPush := true }) := by
  constructor
  · intro h
    simp [mc_winput_cmd_backward_char, h]
  · intro h
    have hdrop : s.buffer.drop s.point = [] := by
      rw [h, List.drop_length]
    have hnext : str_cnext_noncomb_char isComb s.buffer s.point = 0 := by
      simp [str_cnext_noncomb_char, hdrop]
    simp [delete_char, hnext, move_buffer_backward, h]

/-- Witness for C7 (amended): evaluated on the two concrete boundary
states. -/
theorem boundary_commands_preserve_text_witness :
    mc_winput_cmd_backward_char noComb sPending = { sPending with charbuf := [] } ∧
    delete_char noComb sAtEnd = { sAtEnd with charbuf := [], needPush := true } :=
  ⟨(boundary_commands_preserve_text noComb sPending).1 rfl,
   (boundary_commands_preserve_text noComb sAtEnd).2 rfl⟩

/-! ## C8: history push dedup -/

/-- C8: `push_history` appends nothing when the normalized (possibly
password-stripped) text equals the newest entry and the history is not dirty
(the history state is then untouched); in every other case the normalized
text becomes the new newest entry, `current` moves to it and the history is
marked dirty. -/
theorem push_history_dedup (s : WInput) (text : List Char) :
    (s.hist.entries.head? = some (push_normalize s text) →
      s.hist.changed = false →
      (push_history s text).hist = s.hist ∧
      (push_history s text).needPush = false) ∧
    (¬(s.hist.entries.head? = some (push_normalize s text) ∧
        s.hist.changed = false) →
      (push_history s text).hist.entries.head? =
        some (push_normalize s text) ∧
      (push_history s text).hist.current = 0 ∧
      (push_history s text).hist.changed = true) := by
  constructor
  · intro h1 h2
    have hne : ¬ s.hist.entries = [] := by
      intro he
      rw [he] at h1
      simp at h1
    simp [push_history, h1, h2, hne]
  · intro h
    by_cases h1 : s.hist.entries.head? = some (push_normalize s text)
    · have h2 : s.hist.changed = true := by
        cases hc : s.hist.changed with
        | true => rfl
        | false => exact absurd ⟨h1, hc⟩ h
      simp [push_history, h2, list_append_unique]
    · simp [push_history, h1, list_append_unique]

/-- A state whose newest history entry is "a", not dirty. -/
def sHistA : WInput := { inp0 with hist := ⟨[['a']], 0, false⟩ }

/-- Witness for C8: pushing "a" onto a clean history whose newest entry is
already "a" changes nothing; pushing "b" onto an empty history appends it,
moves current to it and marks the history dirty. -/
theorem push_history_dedup_witness :
    ((push_history sHistA ['a']).hist = sHistA.hist ∧
      (push_history sHistA ['a']).needPush = false) ∧
    ((push_history inp0 ['b']).hist.entries.head? = some ['b'] ∧
      (push_history inp0 ['b']).hist.current = 0 ∧
      (push_history inp0 ['b']).hist.changed = true) := by
  constructor
  · exact (push_history_dedup sHistA ['a']).1 (by decide) rfl
  · exact ((push_history_dedup inp0 ['b']).2 (by decide)).imp
      (fun h => h.trans (by decide)) id

/-! ## C5 and C6: insert_char -/

/-- With a selection active, `insert_char` equals `insert_char` on the state
with the selection already deleted: the deletion is the first thing the
function does, before even looking at the byte. -/
theorem insert_char_on_highlight (checker : List Nat → CharCheck) (cols : Nat)
    (alloc_ok : Bool) (s : WInput) (c : Int) (hh : s.highlight = true) :
    insert_char checker cols alloc_ok s c =
      insert_char checker cols alloc_ok
        (delete_region s (min s.mark s.point) (max s.mark s.point)) c := by
  simp [insert_char, input_eval_marks, hh, delete_region, input_mark_cmd,
        input_set_markers]

/-- Characterization of `insert_char` on a state without selection when the
new byte completes a character and the character fits (either because no
growth is needed even counting the terminator, or because growth is allowed
and the capacity invariant `strlen + 1 ≤ capacity` holds): the assembled
bytes are inserted at point as one character and point advances by one. -/
theorem insert_char_spec_valid (checker : List Nat → CharCheck) (cols : Nat)
    (alloc_ok : Bool) (s : WInput) (c : Int)
    (hh : s.highlight = false) (hc : c ≠ -1)
    (hlen : s.charbuf.length < MB_LEN_MAX)
    (hck : checker (s.charbuf ++ [c.toNat % 256]) = CharCheck.valid)
    (hfit : bytesLen s.buffer + s.charbuf.length + 2 ≤ s.current_max_size ∨
            (alloc_ok = true ∧ bytesLen s.buffer + 1 ≤ s.current_max_size)) :
    (insert_char checker cols alloc_ok s c).1.buffer =
      s.buffer.take s.point ++ [s.charbuf ++ [c.toNat % 256]]
        ++ s.buffer.drop s.point ∧
    (insert_char checker cols alloc_ok s c).1.point = s.point + 1 ∧
    (insert_char checker cols alloc_ok s c).1.highlight = s.highlight ∧
    (insert_char checker cols alloc_ok s c).1.mark = s.mark := by
  simp only [insert_char, hh, Bool.false_eq_true, if_false]
  rw [if_neg hc, if_neg (show ¬ s.charbuf.length ≥ MB_LEN_MAX by omega)]
  simp only [hck, List.length_append, List.length_cons, List.length_nil]
  split_ifs with h1 h2 h3 h4 h5 <;>
    simp_all <;> omega

/-- A state holding "abc" with an active selection (mark 0, point 2) and a
pending empty assembler. -/
def sSel : WInput :=
  { inp0 with buffer := [[97], [98], [99]], point := 2, mark := 0,
              highlight := true }

/-- Counterexample to C5: the byte 0xC3 leaves the UTF-8 assembler with an
incomplete sequence, yet feeding it to `insert_char` on a state with an
active selection is not a no-op: the selection is deleted first, changing
both the buffer (from "abc" to "c") and point (from 2 to 0). -/
theorem insert_char_incomplete_not_noop_cex :
    utf8Check [195] = CharCheck.incomplete ∧
    (insert_char utf8Check 5 true sSel 195).1.buffer = [[99]] ∧
    sSel.buffer ≠ [[99]] ∧
    (insert_char utf8Check 5 true sSel 195).1.point = 0 ∧
    sSel.point ≠ 0 := by
  decide

/-- C5 (amended): with an active selection, inserting a byte that alone forms
a complete character first deletes the selected range and then inserts the
character at the resulting point (the selection start), advancing point by
one — the pending assembler bytes having been discarded by the deletion; and
with NO active selection, a byte that leaves the assembler with an incomplete
multi-byte sequence leaves the buffer content and point unchanged.  (With an
active selection the deletion happens before the byte is examined, so the
incomplete case is not a no-op there; see the counterexample.) -/
theorem insert_char_selection_and_incomplete (checker : List Nat → CharCheck)
    (cols : Nat) (alloc_ok : Bool) (s : WInput) (c : Int) :
    (s.highlight = true → c ≠ -1 → alloc_ok = true →
      s.point ≤ s.buffer.length → s.mark ≤ s.buffer.length →
      bytesLen s.buffer + 1 ≤ s.current_max_size →
      checker [c.toNat % 256] = CharCheck.valid →
      (insert_char checker cols alloc_ok s c).1.buffer =
        s.buffer.take (min s.mark s.point) ++ [[c.toNat % 256]]
          ++ s.buffer.drop (max s.mark s.point) ∧
      (insert_char checker cols alloc_ok s c).1.point =
        min s.mark s.point + 1 ∧
      (insert_char checker cols alloc_ok s c).1.highlight = false) ∧
    (s.highlight = false → c ≠ -1 → s.charbuf.length < MB_LEN_MAX →
      checker (s.charbuf ++ [c.toNat % 256]) = CharCheck.incomplete →
      (insert_char checker cols alloc_ok s c).1.buffer = s.buffer ∧
      (insert_char checker cols alloc_ok s c).1.point = s.point) := by
  constructor
  · intro hh hc hal hp hm hcap hck
    rw [insert_char_on_highlight checker cols alloc_ok s c hh]
    have e1 : min (min s.mark s.point) (max s.mark s.point) = min s.mark s.point := by
      omega
    have e2 : max (min s.mark s.point) (max s.mark s.point) = max s.mark s.point := by
      omega
    have hdb : (delete_region s (min s.mark s.point) (max s.mark s.point)).buffer =
        s.buffer.take (min s.mark s.point) ++ s.buffer.drop (max s.mark s.point) := by
      simp [delete_region, input_mark_cmd, input_set_markers, e1, e2]
    have hdp : (delete_region s (min s.mark s.point) (max s.mark s.point)).point =
        min s.mark s.point := by
      simp [delete_region, input_mark_cmd, input_set_markers, e1]
    have hdh : (delete_region s (min s.mark s.point) (max s.mark s.point)).highlight
        = false := by
      simp [delete_region, input_mark_cmd, input_set_markers]
    have hdc : (delete_region s (min s.mark s.point) (max s.mark s.point)).charbuf
        = [] := by
      simp [delete_region, input_mark_cmd, input_set_markers]
    have hdm : (delete_region s (min s.mark s.point)
        (max s.mark s.point)).current_max_size = s.current_max_size := by
      simp [delete_region, input_mark_cmd, input_set_markers]
    obtain ⟨b1, b2, b3, -⟩ :=
      insert_char_spec_valid checker cols alloc_ok
        (delete_region s (min s.mark s.point) (max s.mark s.point)) c
        hdh hc
        (by rw [hdc]; simp [MB_LEN_MAX])
        (by rw [hdc]; simpa using hck)
        (Or.inr ⟨hal, by
          rw [hdb, hdm]
          have hle := bytesLen_take_drop_le s.buffer (min s.mark s.point)
            (max s.mark s.point) (min_le_max)
          omega⟩)
    have hlt : (s.buffer.take (min s.mark s.point)).length = min s.mark s.point := by
      rw [List.length_take]
      omega
    refine ⟨?_, ?_, ?_⟩
    · rw [b1, hdb, hdp, hdc]
      rw [List.take_left' hlt, List.drop_left' hlt]
      simp
    · rw [b2, hdp]
    · rw [b3, hdh]
  · intro hh hc hlen hck
    simp only [insert_char, hh, Bool.false_eq_true, if_false]
    rw [if_neg hc, if_neg (show ¬ s.charbuf.length ≥ MB_LEN_MAX by omega)]
    simp only [hck]
    exact ⟨trivial, trivial⟩

/-- A state without selection, no pending bytes, holding "a" at point 1. -/
def sNoSel : WInput := { inp0 with buffer := [[97]], point := 1 }

/-- Witness for C5 (amended): on "abc" with selection (0,2), inserting the
ASCII byte "x" yields "xc" with point 1 and highlight off; on the
no-selection state "a", the incomplete byte 0xC3 changes neither buffer nor
point. -/
theorem insert_char_selection_and_incomplete_witness :
    ((insert_char utf8Check 5 true sSel 120).1.buffer = [[120], [99]] ∧
      (insert_char utf8Check 5 true sSel 120).1.point = 1 ∧
      (insert_char utf8Check 5 true sSel 120).1.highlight = false) ∧
    ((insert_char utf8Check 5 true sNoSel 195).1.buffer = sNoSel.buffer ∧
      (insert_char utf8Check 5 true sNoSel 195).1.point = sNoSel.point) := by
  constructor
  · have h := (insert_char_selection_and_incomplete utf8Check 5 true sSel 120).1
      rfl (by decide) rfl (by decide) (by decide) (by decide) (by decide)
    exact ⟨h.1.trans (by decide), h.2.1.trans (by decide), h.2.2⟩
  · exact (insert_char_selection_and_incomplete utf8Check 5 true sNoSel 195).2
      rfl (by decide) (by decide) (by decide)

/-- C6: when the inserted complete character does not fit the current
capacity (growth is required: `strlen + charpoint + 1 > current_max_size`
counting the terminator) and the allocation fails, the buffer content and
point are unchanged and the handler still returns normally (the insert is
silently dropped). -/
theorem insert_char_alloc_failure_keeps_buffer (checker : List Nat → CharCheck)
    (cols : Nat) (s : WInput) (c : Int)
    (hh : s.highlight = false) (hc : c ≠ -1)
    (hlen : s.charbuf.length < MB_LEN_MAX)
    (hck : checker (s.charbuf ++ [c.toNat % 256]) = CharCheck.valid)
    (hbig : s.current_max_size ≤ bytesLen s.buffer + s.charbuf.length + 1) :
    (insert_char checker cols false s c).1.buffer = s.buffer ∧
    (insert_char checker cols false s c).1.point = s.point ∧
    (insert_char checker cols false s c).2 = CbRet.handled := by
  simp only [insert_char, hh, Bool.false_eq_true, if_false]
  rw [if_neg hc, if_neg (show ¬ s.charbuf.length ≥ MB_LEN_MAX by omega)]
  simp only [hck, List.length_append, List.length_cons, List.length_nil]
  split_ifs with h1 h2 <;> simp_all <;> omega

/-- A full state: capacity 2, buffer "a" (so strlen + 1 = capacity). -/
def sFull : WInput :=
  { inp0 with buffer := [[97]], point := 1, current_max_size := 2 }

/-- Witness for C6: inserting "b" into the full state with a failing
allocation leaves "a" and point 1 intact and returns handled. -/
theorem insert_char_alloc_failure_keeps_buffer_witness :
    (insert_char utf8Check 5 false sFull 98).1.buffer = sFull.buffer ∧
    (insert_char utf8Check 5 false sFull 98).1.point = sFull.point ∧
    (insert_char utf8Check 5 false sFull 98).2 = CbRet.handled :=
  insert_char_alloc_failure_keeps_buffer utf8Check 5 sFull 98
    rfl (by decide) (by decide) (by decide) (by decide)

/-! ## C9: viewport invariant -/

theorem term_first_recompute_bounds (cols has : Nat) (pw first : Int)
    (hpw : 0 ≤ pw) (h0 : 0 ≤ first) (hcols : 1 ≤ cols)
    (hhas : has = 0 ∨ (has = HISTORY_BUTTON_WIDTH ∧ 8 ≤ cols)) :
    0 ≤ term_first_recompute cols has pw first ∧
    term_first_recompute cols has pw first ≤ pw ∧
    pw < term_first_recompute cols has pw first + ((cols : Int) - (has : Int)) := by
  have hhw : HISTORY_BUTTON_WIDTH = 3 := rfl
  rw [hhw] at hhas
  simp only [term_first_recompute]
  split_ifs <;> omega

/-- C9: after a redraw, the viewport origin is non-negative and the cursor
display column lies in the visible window
`[term_first_shown, term_first_shown + (cols - has_history))`, provided the
origin was non-negative before (it starts at 0 and this redraw keeps it so),
the widget has at least one column, and the history button is only shown on
widgets wide enough for it (`should_show_history_button`); whenever the
column had left the window, the origin is recomputed to one third of the
width before it, clamped at 0 (`term_first_recompute`). -/
theorem input_update_keeps_cursor_visible (cw : List Nat → Nat) (cols : Nat)
    (showHist : Bool) (s : WInput) (clear_first : Bool)
    (h0 : 0 ≤ s.term_first_shown) (hcols : 1 ≤ cols)
    (hwide : showHist = true → 8 ≤ cols) :
    0 ≤ (input_update cw cols showHist s clear_first).term_first_shown ∧
    (input_update cw cols showHist s clear_first).term_first_shown ≤
      (str_term_width2 cw s.buffer s.point : Int) ∧
    (str_term_width2 cw s.buffer s.point : Int) <
      (input_update cw cols showHist s clear_first).term_first_shown +
        ((cols : Int) -
          ((if showHist then HISTORY_BUTTON_WIDTH else 0 : Nat) : Int)) := by
  have hproj : (input_update cw cols showHist s clear_first).term_first_shown =
      term_first_recompute cols (if showHist then HISTORY_BUTTON_WIDTH else 0)
        ((str_term_width2 cw s.buffer s.point : Nat) : Int)
        s.term_first_shown := by
    cases clear_first <;> rfl
  rw [hproj]
  refine term_first_recompute_bounds cols _ _ _ (by positivity) h0 hcols ?_
  cases showHist with
  | false => exact Or.inl rfl
  | true => exact Or.inr ⟨rfl, hwide rfl⟩

/-- Witness for C9: a concrete redraw on a state whose origin 0 no longer
shows the cursor column 20 (buffer of five four-byte-wide characters, width
10): the recomputed origin is 17 and the column is visible. -/
theorem input_update_keeps_cursor_visible_witness :
    0 ≤ (input_update (fun _ => 4) 10 false
          { inp0 with buffer := [[97], [98], [99], [100], [101]], point := 5 }
          true).term_first_shown ∧
    (input_update (fun _ => 4) 10 false
        { inp0 with buffer := [[97], [98], [99], [100], [101]], point := 5 }
        true).term_first_shown ≤
      (str_term_width2 (fun _ => 4)
        [[97], [98], [99], [100], [101]] 5 : Int) ∧
    (str_term_width2 (fun _ => 4) [[97], [98], [99], [100], [101]] 5 : Int) <
      (input_update (fun _ => 4) 10 false
          { inp0 with buffer := [[97], [98], [99], [100], [101]], point := 5 }
          true).term_first_shown +
        ((10 : Int) - ((if false then HISTORY_BUTTON_WIDTH else 0 : Nat) : Int)) :=
  input_update_keeps_cursor_visible (fun _ => 4) 10 false
    { inp0 with buffer := [[97], [98], [99], [100], [101]], point := 5 }
    true (by decide) (by decide) (by decide)
